import Mathlib

/-!
Verification development for the FoldX single-mutation pipeline
(`Single_Mutation/single_mutation.py`).

The Python functions are shallowly embedded as Lean definitions:
pure string/list manipulation becomes Lean functions on `String` /
`List`, the filesystem is passed explicitly where a claim is about it,
external process invocations (the `foldx` binary) become an oracle
argument giving the exit status of each invocation, and raising an
exception becomes an `Except` result.  Numeric stability values parsed
by Python's `float` are modelled by rationals (`ℚ`).
-/

namespace SingleMutation

/-- A residue specifier as parsed by `main`: `(chain, position, wildtype)`,
all kept as strings exactly as the Python code does. -/
abbrev Residue := String × String × String

/-- The fixed 20-letter amino-acid alphabet of `make_mutation_list`
(source line 37). -/
def amino_acids : List String :=
  ["A", "C", "D", "E", "F", "G", "H", "I", "K", "L", "M", "N", "P", "Q", "R", "S", "T", "V", "W", "Y"]

/-- The mutation codes generated by `make_mutation_list` (source lines 39-42),
without the terminating `";\n"`: for each residue `(chain, pos, wt)` in order,
each alphabet letter `aa ≠ wt` yields the code `wt ++ chain ++ pos ++ aa`. -/
def mutationCodes (residues : List Residue) : List String :=
  residues.flatMap fun r =>
    (amino_acids.filter (· ≠ r.2.2)).map fun aa => r.2.2 ++ r.1 ++ r.2.1 ++ aa

/-- The lines `f"{wt}{chain}{pos}{aa};\n"` accumulated in `mutations`
by `make_mutation_list` (source line 42). -/
def mutationLines (residues : List Residue) : List String :=
  residues.flatMap fun r =>
    (amino_acids.filter (· ≠ r.2.2)).map fun aa => r.2.2 ++ r.1 ++ r.2.1 ++ aa ++ ";\n"

/-- The filesystem state the mutation-list generator touches: the contents of
`individual_list.txt`, as the list of strings passed to `writelines`
(`none` when the file does not exist). -/
structure FS where
  individual_list : Option (List String)
  deriving DecidableEq

/-- Embedding of `make_mutation_list` (source lines 36-48): build the mutation
lines, write them to `individual_list.txt`, then raise `ValueError` when the
line count is not divisible by 19.  The write happens in both branches because
the Python code opens and writes the file before the divisibility check. -/
def make_mutation_list (residues : List Residue) (fs : FS) : FS × Except String Unit :=
  let mutations := mutationLines residues
  let fs' : FS := { fs with individual_list := some mutations }
  if mutations.length % 19 ≠ 0 then
    (fs', Except.error ("Number of mutations (" ++ toString mutations.length ++ ") is not correct."))
  else
    (fs', Except.ok ())

example : (mutationLines [("A", "214", "E")]).length = 19 := by decide
example : (mutationLines [("A", "214", "X")]).length = 20 := by decide
example : (make_mutation_list [("A", "214", "X")] ⟨none⟩).2 =
    Except.error "Number of mutations (20) is not correct." := rfl
example : (make_mutation_list [("A", "214", "E")] ⟨none⟩).2 = Except.ok () := rfl

/-- The ASCII whitespace characters stripped by Python's `str.strip()` /
split on by `str.split()`: space, tab, newline, carriage return, vertical
tab, form feed. -/
def isPySpace (c : Char) : Bool :=
  c = ' ' || c = '\t' || c = '\n' || c = '\r' || c = Char.ofNat 11 || c = Char.ofNat 12

/-- Python `str.strip()` on the character list of a string: drop whitespace
from both ends. -/
def stripChars (cs : List Char) : List Char :=
  ((cs.dropWhile isPySpace).reverse.dropWhile isPySpace).reverse

/-- Python `str.rstrip(';')` on the character list of a string: drop every
trailing semicolon. -/
def rstripSemiChars (cs : List Char) : List Char :=
  (cs.reverse.dropWhile (· = ';')).reverse

/-- Splitting file contents into lines, as Python's `for line in f` does
(the text between consecutive newlines; each line of the file iterator keeps
its trailing newline, which `strip()` removes again, so splitting at the
newlines is the same after stripping). -/
def splitLines : List Char → List (List Char)
  | [] => [[]]
  | c :: rest =>
    if c = '\n' then [] :: splitLines rest
    else
      match splitLines rest with
      | [] => [[c]]
      | l :: ls => (c :: l) :: ls

/-- Concatenation of the written lines, as `file.writelines(mutations)`
produces the contents of `individual_list.txt`. -/
def joinAll (lines : List String) : String :=
  lines.foldr (fun a b => a ++ b) ""

/-- Embedding of `get_mutation_names` (source lines 50-57), as a function of
the file contents: for each line, `strip()` then `rstrip(';')`, and keep the
result when it is nonempty. -/
def get_mutation_names (contents : String) : List String :=
  (splitLines contents.data).filterMap fun lineCs =>
    let t := rstripSemiChars (stripChars lineCs)
    if t = [] then none else some (String.mk t)

example : get_mutation_names "A1B;\nB2C;\n" = ["A1B", "B2C"] := by decide

/-- Value of the digit list read in base 10 (the digits are ASCII `'0'`-`'9'`). -/
def digitsToNat (ds : List Char) : Nat :=
  ds.foldl (fun n c => 10 * n + (c.toNat - 48)) 0

/-- Embedding of `file_key` (source lines 60-65): `re.search(r'_(\d+)\.pdb$', filename)`
finds a maximal digit run that is preceded by `'_'` and followed by the final
`".pdb"`; on a match the run's numeric value is returned, otherwise `-1`. -/
def file_key (filename : String) : Int :=
  match filename.data.reverse with
  | 'b' :: 'd' :: 'p' :: '.' :: rest =>
    let digits := rest.takeWhile Char.isDigit
    if digits = [] then -1
    else
      match rest.dropWhile Char.isDigit with
      | '_' :: _ => (digitsToNat digits.reverse : Int)
      | _ => -1
  | _ => -1

example : file_key "foo_123.pdb" = 123 := by decide
example : file_key "foo.pdb" = -1 := by decide
example : file_key "a_12_34.pdb" = 34 := by decide

/-- The generated `.pdb` files in the order `sorted(pdb_files, key=file_key)`
visits them (source line 71); Python's sort is stable and `mergeSort` with a
`≤` test is the same stable sort. -/
def pdb_sorted (pdb_files : List String) : List String :=
  pdb_files.mergeSort fun a b => decide (file_key a ≤ file_key b)

/-- Embedding of `rename_pdb_files` (source lines 68-78) as a function of the
glob result `pdb_files`: when the file count differs from the mutation count
a warning is printed and nothing is renamed (`none`); otherwise the result is
the list of performed renames `(old name, new name)`, pairing the sorted
files with the mutation names positionally. -/
def rename_pdb_files (base : String) (pdb_files mutation_names : List String) :
    Option (List (String × String)) :=
  if pdb_files.length ≠ mutation_names.length then none
  else
    some ((pdb_sorted pdb_files).zip
      (mutation_names.map fun mutation => base ++ "_" ++ mutation ++ ".pdb"))

unseal List.merge List.mergeSort in
example :
    rename_pdb_files "base_Repair" ["base_Repair_2.pdb", "base_Repair_1.pdb"] ["m1", "m2"] =
      some [("base_Repair_1.pdb", "base_Repair_m1.pdb"),
            ("base_Repair_2.pdb", "base_Repair_m2.pdb")] := by decide

/-- One file's attempt loop in `run_foldx_stability` (source lines 100-112):
starting at attempt index `start` with `remaining` attempts left, run the
stability command (whose exit status is `exitStatus attempt`) until it returns
`0` or the attempts are exhausted.  Returns whether a run succeeded and how
many invocations were made. -/
def attemptLoop (exitStatus : Nat → Int) (start : Nat) : Nat → Bool × Nat
  | 0 => (false, 0)
  | remaining + 1 =>
    if exitStatus start = 0 then (true, 1)
    else
      let rest := attemptLoop exitStatus (start + 1) remaining
      (rest.1, rest.2 + 1)

/-- The retry loop for a single file: at most `max_retries` attempts,
numbered from `0`. -/
def run_file_attempts (exitStatus : Nat → Int) (max_retries : Nat) : Bool × Nat :=
  attemptLoop exitStatus 0 max_retries

/-- Embedding of `run_foldx_stability` (source lines 91-122) as a function of
the glob result `matching_files` and an oracle `exitStatus f i` giving the
exit status of the `i`-th stability invocation on file `f`: `none` when no
file matches the pattern, otherwise `some true` iff no file ended up in
`error_files` after its retries. -/
def run_foldx_stability (matching_files : List String)
    (exitStatus : String → Nat → Int) (max_retries : Nat) : Option Bool :=
  if matching_files.isEmpty then none
  else
    let error_files :=
      matching_files.filter fun f => !(run_file_attempts (exitStatus f) max_retries).1
    if error_files.isEmpty then some true else some false

/-- Total number of external stability invocations made for a batch. -/
def total_stability_invocations (matching_files : List String)
    (exitStatus : String → Nat → Int) (max_retries : Nat) : Nat :=
  (matching_files.map fun f => (run_file_attempts (exitStatus f) max_retries).2).sum

/-- Embedding of `repair_pdb` (source lines 22-34): `run_foldx_command` never
raises (it returns the `CalledProcessError` object on failure), so the only
exception `repair_pdb` can raise is the `FileNotFoundError` when the repaired
file is absent; a non-zero `returncode` is merely logged.  The function is a
map from the exit status of the repair invocation and the existence of
`{base}_Repair.pdb` to either the raised error or the returned file name. -/
def repair_pdb (base_pdb_name : String) (returncode : Int) (repaired_exists : Bool) :
    Except String String :=
  if repaired_exists = false then Except.error "Repaired PDB not generated"
  else Except.ok (base_pdb_name ++ "_Repair.pdb")

example : repair_pdb "test" 1 true = Except.ok "test_Repair.pdb" := rfl

/-- Splitter for Python's `str.split()` with no argument: split on runs of
whitespace and discard empty fields.  `acc` holds the reversed characters of
the field currently being read. -/
def splitFieldsAux : List Char → List Char → List (List Char)
  | [], acc => if acc = [] then [] else [acc.reverse]
  | c :: rest, acc =>
    if isPySpace c then
      if acc = [] then splitFieldsAux rest []
      else acc.reverse :: splitFieldsAux rest []
    else splitFieldsAux rest (c :: acc)

/-- Python `line.split()`: the whitespace-separated fields of a line. -/
def pySplit (s : String) : List String :=
  (splitFieldsAux s.data []).map fun cs => String.mk cs

example : pySplit "  x   10.0 " = ["x", "10.0"] := by decide

/-- Python's `float()` on the decimal literals appearing in FoldX output,
modelled over `ℚ`: an optional sign, an integer and/or fractional digit part,
and an optional decimal exponent.  (The special values `inf`/`nan` and exotic
syntax are outside the model; FoldX stability columns are plain decimals.) -/
def pyFloat (s : String) : Option ℚ :=
  let p1 : ℚ × List Char :=
    match s.data with
    | '+' :: r => (1, r)
    | '-' :: r => (-1, r)
    | r => (1, r)
  let intPart := p1.2.takeWhile Char.isDigit
  let afterInt := p1.2.dropWhile Char.isDigit
  let p2 : List Char × List Char :=
    match afterInt with
    | '.' :: r => (r.takeWhile Char.isDigit, r.dropWhile Char.isDigit)
    | r => ([], r)
  let fracPart := p2.1
  if intPart = [] ∧ fracPart = [] then none
  else
    let mant : ℚ :=
      p1.1 * ((digitsToNat intPart : ℚ) + (digitsToNat fracPart : ℚ) / 10 ^ fracPart.length)
    match p2.2 with
    | [] => some mant
    | c :: r =>
      if c = 'e' ∨ c = 'E' then
        let p3 : Int × List Char :=
          match r with
          | '+' :: r2 => (1, r2)
          | '-' :: r2 => (-1, r2)
          | r2 => (1, r2)
        let expDigits := p3.2.takeWhile Char.isDigit
        if expDigits = [] ∨ p3.2.dropWhile Char.isDigit ≠ [] then none
        else some (mant * (10 : ℚ) ^ (p3.1 * (digitsToNat expDigits : Int)))
      else none

unseal Nat.gcd Rat.mul Rat.inv Rat.sub Rat.add in
example : pyFloat "10.0" = some 10 := by decide

unseal Nat.gcd Rat.mul Rat.inv Rat.sub Rat.add in
example : pyFloat "-1.5e1" = some (-15) := by decide

example : pyFloat "x" = none := by decide
example : pyFloat "" = none := by decide

/-- The numeric value `float(line.strip().split()[1])` a line of an `_ST.fxout`
file contributes in `subtract_fields` (source lines 154-161): `none` when the
line has fewer than two fields or the second field is not numeric. -/
def lineValue (line : String) : Option ℚ :=
  let fields := pySplit (String.mk (stripChars line.data))
  if fields.length < 2 then none
  else pyFloat (fields.getD 1 "")

/-- One step of the paired-line loop of `subtract_fields` (source lines
153-165): with `line1` from the reference file and `line2` from the mutant
file, the computed entry is `value2 - value1`; a line pair with too few
fields or a non-numeric second field is skipped. -/
def subtract_line (line1 line2 : String) : Option ℚ :=
  match lineValue line1, lineValue line2 with
  | some value1, some value2 => some (value2 - value1)
  | _, _ => none

/-- The deltas `subtract_fields` computes for one mutant file: the reference
file's lines are paired with the mutant file's lines by `zip`, and each
non-skipped pair contributes `value2 - value1`. -/
def subtract_file (file1_lines file2_lines : List String) : List ℚ :=
  (file1_lines.zip file2_lines).filterMap fun p => subtract_line p.1 p.2

unseal Nat.gcd Rat.mul Rat.inv Rat.sub Rat.add in
example : subtract_file ["x 10.0", "y 12.0"] ["x 11.5", "y 9.0"] =
    [3 / 2, -3] := by decide

/-- A ranked result row of `subtract_fields`: `(mutation, source file, delta)`. -/
abbrev Row := String × String × ℚ

/-- The group key of `re.match(r'^([A-Z]{2})(\d{1,3})([A-Z])$', mutation)`
(source lines 171-177): when the mutation code is two ASCII capitals, one to
three digits and a final capital, the numeric position; otherwise the
fallback group `0`. -/
def groupNum (mutation : String) : Nat :=
  match mutation.data with
  | c0 :: c1 :: rest =>
    if c0.isUpper ∧ c1.isUpper then
      let ds := rest.takeWhile Char.isDigit
      match rest.dropWhile Char.isDigit with
      | [cl] => if cl.isUpper ∧ 1 ≤ ds.length ∧ ds.length ≤ 3 then digitsToNat ds else 0
      | _ => 0
    else 0
  | _ => 0

example : groupNum "EA214A" = 214 := by decide
example : groupNum "E214A" = 0 := by decide
example : groupNum "EA1234A" = 0 := by decide

/-- One group's rows in ranked order: the bucket `groups[k]` keeps the
original row order (as `dict.setdefault(...).append` does) and is then
sorted by descending delta — Python's stable `sorted(group_rows,
key=lambda x: -x[2])` (source line 181). -/
def rank_block (results : List Row) (k : Nat) : List Row :=
  (results.filter fun r => decide (groupNum r.1 = k)).mergeSort
    fun a b => decide (b.2.2 ≤ a.2.2)

/-- The grouping and ranking stage of `subtract_fields` (source lines
168-182): bucket the rows by `groupNum` of their mutation code, visit the
distinct group keys in ascending order (`sorted(groups.items(), key=lambda
x: x[0])`), and concatenate each group's rows ranked by descending delta. -/
def group_and_rank (results : List Row) : List Row :=
  (((results.map fun r => groupNum r.1).dedup).mergeSort fun a b => decide (a ≤ b)).flatMap
    (rank_block results)

unseal Nat.gcd Rat.mul Rat.inv Rat.sub Rat.add List.merge List.mergeSort in
example :
    group_and_rank [("EA2C", "f1", 5), ("EA1C", "f2", 1), ("EA1D", "f3", 3), ("EA2D", "f4", 7)] =
      [("EA1D", "f3", 3), ("EA1C", "f2", 1), ("EA2D", "f4", 7), ("EA2C", "f1", 5)] := by decide

/-- A string none of whose characters is Python whitespace. -/
def wsFreeStr (s : String) : Prop :=
  ∀ c ∈ s.data, isPySpace c = false

/-- A residue specifier whose chain, position and wild-type strings contain
no whitespace characters (as any residue reaching `make_mutation_list`
through the CLI's `chain:position:wildtype` parsing normally does). -/
def residue_ws_free (r : Residue) : Prop :=
  wsFreeStr r.1 ∧ wsFreeStr r.2.1 ∧ wsFreeStr r.2.2

instance (s : String) : Decidable (wsFreeStr s) := by
  unfold wsFreeStr
  infer_instance

instance (r : Residue) : Decidable (residue_ws_free r) := by
  unfold residue_ws_free
  infer_instance

/-- A written mutation code that survives the read-back unchanged: nonempty,
free of newlines, not starting with whitespace, and not ending with
whitespace or a semicolon. -/
def goodCodeChars (cs : List Char) : Prop :=
  cs ≠ [] ∧ (∀ c ∈ cs, c ≠ '\n') ∧
    (∀ c, cs.head? = some c → isPySpace c = false) ∧
    (∀ c, cs.getLast? = some c → isPySpace c = false ∧ c ≠ ';')

lemma amino_acids_nodup : amino_acids.Nodup := by decide

lemma amino_acids_length : amino_acids.length = 20 := rfl

lemma length_filter_ne_of_mem {w : String} (hw : w ∈ amino_acids) :
    (amino_acids.filter (· ≠ w)).length = 19 := by
  fin_cases hw <;> decide

lemma mutationLines_cons (r : Residue) (rs : List Residue) :
    mutationLines (r :: rs) =
      ((amino_acids.filter (· ≠ r.2.2)).map fun aa => r.2.2 ++ r.1 ++ r.2.1 ++ aa ++ ";\n") ++
        mutationLines rs := by
  simp [mutationLines]

/-- C1 (amended): for residue lists whose wild-type letters all belong to the
20-letter amino-acid alphabet, the generated mutation list has exactly
19 × (number of residues) lines, and every line is
`{wildtype}{chain}{position}{mutant};` (plus the newline) for one of the given
residues with a substituted letter from the alphabet that differs from that
residue's wild-type. -/
theorem mutation_list_count_and_shape (residues : List Residue)
    (h : ∀ r ∈ residues, r.2.2 ∈ amino_acids) :
    (mutationLines residues).length = 19 * residues.length ∧
      ∀ line ∈ mutationLines residues, ∃ r ∈ residues, ∃ aa ∈ amino_acids,
        aa ≠ r.2.2 ∧ line = r.2.2 ++ r.1 ++ r.2.1 ++ aa ++ ";\n" := by
  constructor
  · induction residues with
    | nil => rfl
    | cons r rs ih =>
      rw [mutationLines_cons, List.length_append, List.length_map,
        length_filter_ne_of_mem (h r (List.mem_cons_self r rs)),
        ih fun x hx => h x (List.mem_cons_of_mem r hx)]
      simp [Nat.mul_succ, Nat.add_comm]
  · intro line hline
    rw [mutationLines, List.mem_flatMap] at hline
    obtain ⟨r, hr, hline⟩ := hline
    rw [List.mem_map] at hline
    obtain ⟨aa, haa, rfl⟩ := hline
    rw [List.mem_filter] at haa
    exact ⟨r, hr, aa, haa.1, of_decide_eq_true haa.2, rfl⟩

/-- C1 witness: the single residue `("A", "214", "E")` yields 19 × 1 lines. -/
theorem mutation_list_count_and_shape_witness :
    (mutationLines [("A", "214", "E")]).length = 19 * 1 :=
  (mutation_list_count_and_shape [("A", "214", "E")] (by decide)).1

/-- C1 counterexample: the claim as stated fails when the recorded wild-type
letter is not in the 20-letter alphabet — for the residue list
`[("A", "214", "X")]` the generated list has 20 lines, not 19 × 1. -/
theorem mutation_list_count_claim_false_for_foreign_wildtype :
    ¬ (mutationLines [("A", "214", "X")]).length = 19 * 1 := by decide

/-- C7: the mutation list generator raises its `ValueError` if and only if the
number of generated lines is not divisible by 19; when it is divisible the
generator completes without raising. -/
theorem mutation_list_error_iff_not_divisible (residues : List Residue) (fs : FS) :
    ((make_mutation_list residues fs).2 = Except.ok () ↔
      (mutationLines residues).length % 19 = 0) ∧
    ((make_mutation_list residues fs).2 =
        Except.error ("Number of mutations (" ++ toString (mutationLines residues).length ++
          ") is not correct.") ↔
      (mutationLines residues).length % 19 ≠ 0) := by
  unfold make_mutation_list
  by_cases h : (mutationLines residues).length % 19 = 0 <;> simp [h]

/-- C8: when the mutation list generator raises, `individual_list.txt` has
already been written with the full generated line set: the written contents
accompany the error, and the filesystem differs from any starting state that
did not already hold exactly those contents. -/
theorem mutation_list_written_before_error (residues : List Residue) (fs : FS) (msg : String)
    (herr : (make_mutation_list residues fs).2 = Except.error msg) :
    (make_mutation_list residues fs).1.individual_list = some (mutationLines residues) ∧
      (fs.individual_list ≠ some (mutationLines residues) →
        (make_mutation_list residues fs).1 ≠ fs) := by
  unfold make_mutation_list at herr ⊢
  by_cases h : (mutationLines residues).length % 19 = 0
  · simp [h] at herr
  · refine ⟨by simp [h], fun hne hfs => hne ?_⟩
    rw [← hfs]
    simp [h]

/-- C8 witness: for the residue list `[("A", "214", "X")]` (20 generated
lines) the generator raises, and the file nevertheless holds the 20 lines. -/
theorem mutation_list_written_before_error_witness :
    (make_mutation_list [("A", "214", "X")] ⟨none⟩).1.individual_list =
      some (mutationLines [("A", "214", "X")]) ∧
      ((⟨none⟩ : FS).individual_list ≠ some (mutationLines [("A", "214", "X")]) →
        (make_mutation_list [("A", "214", "X")] ⟨none⟩).1 ≠ (⟨none⟩ : FS)) :=
  mutation_list_written_before_error [("A", "214", "X")] ⟨none⟩
    "Number of mutations (20) is not correct." rfl

/-- C4 counterexample: a non-zero exit status of the repair invocation is not
fatal by itself — with exit status `1` and the repaired file present,
`repair_pdb` returns normally instead of raising. -/
theorem repair_nonzero_exit_not_fatal :
    repair_pdb "test" 1 true = Except.ok "test_Repair.pdb" ∧
      ∀ msg, repair_pdb "test" 1 true ≠ Except.error msg := by
  exact ⟨rfl, fun msg h => by simp [repair_pdb] at h⟩

/-- C4 (amended): the repair step raises (and the exception propagates to the
top-level handler) exactly when the expected repaired output file is absent;
a non-zero exit status alone is only logged, and in particular a non-zero
exit with the repaired file missing aborts the run. -/
theorem repair_error_iff_missing_file (base : String) (returncode : Int)
    (repaired_exists : Bool) :
    ((∃ msg, repair_pdb base returncode repaired_exists = Except.error msg) ↔
      repaired_exists = false) ∧
    repair_pdb base returncode false = Except.error "Repaired PDB not generated" := by
  refine ⟨⟨fun ⟨msg, h⟩ => ?_, fun h => ⟨"Repaired PDB not generated", by simp [repair_pdb, h]⟩⟩, rfl⟩
  by_cases he : repaired_exists = false
  · exact he
  · simp [repair_pdb, he] at h

lemma attemptLoop_invocations_le (exitStatus : Nat → Int) (start n : Nat) :
    (attemptLoop exitStatus start n).2 ≤ n := by
  induction n generalizing start with
  | zero => exact Nat.le_refl 0
  | succ n ih =>
    unfold attemptLoop
    by_cases h : exitStatus start = 0
    · simp [h]
    · simpa [h] using ih (start + 1)

lemma attemptLoop_success_iff (exitStatus : Nat → Int) (start n : Nat) :
    (attemptLoop exitStatus start n).1 = true ↔ ∃ i < n, exitStatus (start + i) = 0 := by
  induction n generalizing start with
  | zero => simp [attemptLoop]
  | succ n ih =>
    unfold attemptLoop
    by_cases h : exitStatus start = 0
    · simpa [h] using ⟨0, Nat.succ_pos n, by simpa using h⟩
    · simp only [h, if_false]
      rw [ih (start + 1)]
      constructor
      · rintro ⟨i, hi, hzero⟩
        exact ⟨i + 1, by omega, by rw [← hzero]; ring_nf⟩
      · rintro ⟨i, hi, hzero⟩
        match i, hi, hzero with
        | 0, _, hzero => exact absurd (by simpa using hzero) h
        | i + 1, hi, hzero => exact ⟨i, by omega, by rw [← hzero]; ring_nf⟩

lemma run_file_attempts_success_iff (exitStatus : Nat → Int) (n : Nat) :
    (run_file_attempts exitStatus n).1 = true ↔ ∃ i < n, exitStatus i = 0 := by
  simpa using attemptLoop_success_iff exitStatus 0 n

/-- C3: for a nonempty batch, each file's stability command is invoked at most
`max_retries` times, and the runner reports overall success (`some true`)
exactly when every file in the batch has a successful (zero exit status)
invocation within its own attempt budget. -/
theorem stability_retries_bounded_and_success_iff (matching_files : List String)
    (exitStatus : String → Nat → Int) (max_retries : Nat) (h : matching_files ≠ []) :
    (∀ f ∈ matching_files, (run_file_attempts (exitStatus f) max_retries).2 ≤ max_retries) ∧
    (run_foldx_stability matching_files exitStatus max_retries = some true ↔
      ∀ f ∈ matching_files, ∃ i < max_retries, exitStatus f i = 0) := by
  refine ⟨fun f _ => attemptLoop_invocations_le _ _ _, ?_⟩
  unfold run_foldx_stability
  rw [if_neg (by simpa [List.isEmpty_iff] using h)]
  by_cases hemp :
      (matching_files.filter fun f => !(run_file_attempts (exitStatus f) max_retries).1) = []
  · rw [hemp]
    simp only [List.isEmpty_nil, if_true, true_iff]
    intro f hf
    have hok := List.filter_eq_nil_iff.mp hemp f hf
    rw [← run_file_attempts_success_iff]
    simpa using hok
  · rw [if_neg (by simpa [List.isEmpty_iff] using hemp)]
    constructor
    · intro hcontra
      exact absurd hcontra (by simp)
    · intro hall
      exfalso
      apply hemp
      rw [List.filter_eq_nil_iff]
      intro f hf
      have := (run_file_attempts_success_iff (exitStatus f) max_retries).mpr (hall f hf)
      simp [this]

/-- C3 witness: a one-file batch whose stability run succeeds immediately. -/
theorem stability_retries_bounded_and_success_iff_witness :
    run_foldx_stability ["t_Repair.pdb"] (fun _ _ => 0) 3 = some true :=
  (stability_retries_bounded_and_success_iff ["t_Repair.pdb"] (fun _ _ => 0) 3
      (by simp)).2.mpr fun f _ => ⟨0, by omega, rfl⟩

/-- C10: when no file matches the repaired-file pattern the stability runner
returns `None`, performs no external invocation, and that outcome is distinct
from the batch-success (`True`) and batch-failure (`False`) reports. -/
theorem stability_empty_batch_returns_none (exitStatus : String → Nat → Int)
    (max_retries : Nat) :
    run_foldx_stability [] exitStatus max_retries = none ∧
    total_stability_invocations [] exitStatus max_retries = 0 ∧
    (∀ b : Bool, run_foldx_stability [] exitStatus max_retries ≠ some b) :=
  ⟨rfl, rfl, fun b hb => by simpa [run_foldx_stability] using hb⟩

lemma pdb_sorted_perm (pdb_files : List String) : (pdb_sorted pdb_files).Perm pdb_files :=
  List.mergeSort_perm pdb_files _

lemma pdb_sorted_sorted (pdb_files : List String) :
    (pdb_sorted pdb_files).Pairwise fun a b => file_key a ≤ file_key b := by
  have h := @List.sorted_mergeSort String
    (fun a b => decide (file_key a ≤ file_key b))
    (fun a b c h1 h2 =>
      decide_eq_true (le_trans (of_decide_eq_true h1) (of_decide_eq_true h2)))
    (fun a b => by
      simp only [Bool.or_eq_true, decide_eq_true_eq]
      exact le_total (file_key a) (file_key b))
    pdb_files
  exact h.imp fun hab => of_decide_eq_true hab

/-- C2: when the generated file count equals the mutation-code count, the
renamer pairs the files, ordered by their embedded numeric suffix (`file_key`,
`-1` for a missing suffix), positionally with the mutation codes, renaming the
`i`-th file to `{base}_{code}.pdb`; the sorted order is a permutation of the
glob result, so the pairing is a bijection.  When the counts differ no file is
renamed. -/
theorem rename_pairing_or_noop (base : String) (pdb_files mutation_names : List String) :
    (pdb_files.length = mutation_names.length →
      rename_pdb_files base pdb_files mutation_names =
        some ((pdb_sorted pdb_files).zip
          (mutation_names.map fun mutation => base ++ "_" ++ mutation ++ ".pdb")) ∧
      (pdb_sorted pdb_files).Perm pdb_files ∧
      ((pdb_sorted pdb_files).Pairwise fun a b => file_key a ≤ file_key b) ∧
      (pdb_sorted pdb_files).length = mutation_names.length) ∧
    (pdb_files.length ≠ mutation_names.length →
      rename_pdb_files base pdb_files mutation_names = none) := by
  constructor
  · intro h
    refine ⟨by rw [rename_pdb_files, if_neg (by simp [h])],
      pdb_sorted_perm pdb_files, pdb_sorted_sorted pdb_files, ?_⟩
    rw [← h]
    exact (pdb_sorted_perm pdb_files).length_eq
  · intro h
    rw [rename_pdb_files, if_pos h]

/-- C2 witness: two generated files, two mutation codes; the file without the
larger suffix comes first and the pairing is performed. -/
theorem rename_pairing_or_noop_witness :
    rename_pdb_files "base_Repair" ["base_Repair_2.pdb", "base_Repair_1.pdb"] ["m1", "m2"] =
      some ((pdb_sorted ["base_Repair_2.pdb", "base_Repair_1.pdb"]).zip
        (["m1", "m2"].map fun mutation => "base_Repair" ++ "_" ++ mutation ++ ".pdb")) ∧
    (pdb_sorted ["base_Repair_2.pdb", "base_Repair_1.pdb"]).Perm
      ["base_Repair_2.pdb", "base_Repair_1.pdb"] ∧
    ((pdb_sorted ["base_Repair_2.pdb", "base_Repair_1.pdb"]).Pairwise fun a b =>
      file_key a ≤ file_key b) ∧
    (pdb_sorted ["base_Repair_2.pdb", "base_Repair_1.pdb"]).length = (["m1", "m2"] : List String).length :=
  (rename_pairing_or_noop "base_Repair" ["base_Repair_2.pdb", "base_Repair_1.pdb"]
    ["m1", "m2"]).1 rfl

lemma subtract_line_swap (line1 line2 : String) :
    subtract_line line2 line1 = (subtract_line line1 line2).map fun d => -d := by
  unfold subtract_line
  cases h1 : lineValue line1 <;> cases h2 : lineValue line2 <;> simp [neg_sub]

/-- C5: the per-line delta is mutant-value minus reference-value, and the
computation is antisymmetric — swapping the roles of the reference file and a
mutant file negates every computed delta. -/
theorem delta_antisymmetric :
    (∀ line1 line2 v1 v2, lineValue line1 = some v1 → lineValue line2 = some v2 →
      subtract_line line1 line2 = some (v2 - v1)) ∧
    ∀ file1_lines file2_lines : List String,
      subtract_file file1_lines file2_lines =
        (subtract_file file2_lines file1_lines).map fun d => -d := by
  constructor
  · intro line1 line2 v1 v2 h1 h2
    simp [subtract_line, h1, h2]
  · intro f1 f2
    unfold subtract_file
    rw [← List.zip_swap f1 f2, List.filterMap_map, List.map_filterMap]
    refine List.filterMap_congr fun p _ => ?_
    show subtract_line p.1 p.2 = (subtract_line p.2 p.1).map fun d => -d
    rw [subtract_line_swap p.2 p.1]

/-- C5 witness: the swap identity at the spec's scenario lines. -/
theorem delta_antisymmetric_witness :
    subtract_file ["x 10.0", "y 12.0"] ["x 11.5", "y 9.0"] =
      (subtract_file ["x 11.5", "y 9.0"] ["x 10.0", "y 12.0"]).map fun d => -d :=
  delta_antisymmetric.2 ["x 10.0", "y 12.0"] ["x 11.5", "y 9.0"]

lemma rank_block_key {results : List Row} {k : Nat} {r : Row}
    (hr : r ∈ rank_block results k) : groupNum r.1 = k := by
  rw [rank_block, List.mem_mergeSort, List.mem_filter] at hr
  exact of_decide_eq_true hr.2

lemma rank_block_sorted (results : List Row) (k : Nat) :
    (rank_block results k).Pairwise fun a b => b.2.2 ≤ a.2.2 := by
  have h := @List.sorted_mergeSort Row
    (fun a b : Row => decide (b.2.2 ≤ a.2.2))
    (fun a b c h1 h2 =>
      decide_eq_true (le_trans (of_decide_eq_true h2) (of_decide_eq_true h1)))
    (fun a b => by
      simp only [Bool.or_eq_true, decide_eq_true_eq]
      exact le_total (b.2.2) (a.2.2))
    (results.filter fun r => decide (groupNum r.1 = k))
  exact h.imp fun hab => of_decide_eq_true hab

lemma group_keys_strictly_sorted (results : List Row) :
    ((((results.map fun r => groupNum r.1).dedup).mergeSort fun a b =>
      decide (a ≤ b)).Pairwise (· < ·)) := by
  have hsorted := @List.sorted_mergeSort Nat
    (fun a b : Nat => decide (a ≤ b))
    (fun a b c h1 h2 =>
      decide_eq_true (le_trans (of_decide_eq_true h1) (of_decide_eq_true h2)))
    (fun a b => by
      simp only [Bool.or_eq_true, decide_eq_true_eq]
      exact le_total a b)
    ((results.map fun r => groupNum r.1).dedup)
  have hnodup : (((results.map fun r => groupNum r.1).dedup).mergeSort fun a b =>
      decide (a ≤ b)).Nodup :=
    (List.mergeSort_perm _ _).nodup_iff.mpr ((results.map fun r => groupNum r.1).nodup_dedup)
  exact ((hsorted.imp fun hab => of_decide_eq_true hab).and hnodup).imp
    fun hab => lt_of_le_of_ne hab.1 hab.2

lemma flatMap_rank_blocks_pairwise (results : List Row) (keys : List Nat)
    (hk : keys.Pairwise (· < ·)) :
    (keys.flatMap (rank_block results)).Pairwise fun a b : Row =>
      groupNum a.1 ≤ groupNum b.1 ∧ (groupNum a.1 = groupNum b.1 → b.2.2 ≤ a.2.2) := by
  induction keys with
  | nil => simp
  | cons k ks ih =>
    rw [List.flatMap_cons, List.pairwise_append]
    refine ⟨?_, ih (List.pairwise_cons.mp hk).2, ?_⟩
    · refine (rank_block_sorted results k).imp_of_mem fun ha hb hab => ?_
      exact ⟨le_of_eq (by rw [rank_block_key ha, rank_block_key hb]), fun _ => hab⟩
    · intro a ha b hb
      obtain ⟨k2, hk2, hb⟩ := List.mem_flatMap.mp hb
      have hlt : k < k2 := (List.pairwise_cons.mp hk).1 k2 hk2
      rw [rank_block_key ha, rank_block_key hb]
      exact ⟨le_of_lt hlt, fun heq => absurd heq (ne_of_lt hlt)⟩

/-- C6: in the ranked output, any earlier row's position group is at most any
later row's (so the groups appear concatenated in ascending numeric position,
each group contiguous), and within a group the deltas are non-increasing. -/
theorem ranked_output_grouped_and_sorted (results : List Row) :
    (group_and_rank results).Pairwise fun a b : Row =>
      groupNum a.1 ≤ groupNum b.1 ∧ (groupNum a.1 = groupNum b.1 → b.2.2 ≤ a.2.2) :=
  flatMap_rank_blocks_pairwise results _ (group_keys_strictly_sorted results)

lemma head?_append_of_ne_nil {α : Type} (l1 l2 : List α) (h : l1 ≠ []) :
    (l1 ++ l2).head? = l1.head? := by
  cases l1 with
  | nil => exact absurd rfl h
  | cons a l => rfl

lemma mem_of_head?_eq {α : Type} {c : α} {l : List α} (h : l.head? = some c) : c ∈ l := by
  cases l with
  | nil => cases h
  | cons a l =>
    have ha : a = c := by simpa using h
    rw [← ha]
    exact List.mem_cons_self _ _

lemma splitLines_append (l1 : List Char) (h : ∀ c ∈ l1, c ≠ '\n') (rest : List Char) :
    splitLines (l1 ++ '\n' :: rest) = l1 :: splitLines rest := by
  induction l1 with
  | nil => rw [List.nil_append, splitLines, if_pos rfl]
  | cons a l1 ih =>
    have ha : ¬(a = '\n') := h a (List.mem_cons_self a l1)
    rw [List.cons_append, splitLines, if_neg ha, ih fun c hc => h c (List.mem_cons_of_mem a hc)]

lemma dropWhile_eq_self_of_head (p : Char → Bool) {cs : List Char}
    (h : ∀ c, cs.head? = some c → p c = false) : cs.dropWhile p = cs := by
  cases cs with
  | nil => rfl
  | cons a l => rw [List.dropWhile_cons, h a rfl]; simp

lemma stripChars_eq_self {cs : List Char}
    (hh : ∀ c, cs.head? = some c → isPySpace c = false)
    (hl : ∀ c, cs.getLast? = some c → isPySpace c = false) :
    stripChars cs = cs := by
  rw [stripChars, dropWhile_eq_self_of_head _ hh,
    dropWhile_eq_self_of_head _ (by simpa using hl), List.reverse_reverse]

lemma rstripSemiChars_append {cs : List Char}
    (h : ∀ c, cs.getLast? = some c → c ≠ ';') :
    rstripSemiChars (cs ++ [';']) = cs := by
  have h1 : (cs ++ [';']).reverse = ';' :: cs.reverse := by simp
  rw [rstripSemiChars, h1, List.dropWhile_cons,
    if_pos (by decide : (decide ((';' : Char) = ';')) = true),
    dropWhile_eq_self_of_head (fun c => decide (c = ';')) (by
      intro c hc
      rw [List.head?_reverse] at hc
      exact decide_eq_false (h c hc)),
    List.reverse_reverse]

lemma read_back_chunk {cs : List Char} (h : goodCodeChars cs) :
    rstripSemiChars (stripChars (cs ++ [';'])) = cs := by
  obtain ⟨hne, -, hh, hl⟩ := h
  have hstrip : stripChars (cs ++ [';']) = cs ++ [';'] := by
    refine stripChars_eq_self ?_ ?_
    · intro c hc
      rw [head?_append_of_ne_nil cs [';'] hne] at hc
      exact hh c hc
    · intro c hc
      rw [List.getLast?_concat] at hc
      cases hc
      decide
  rw [hstrip, rstripSemiChars_append fun c hc => (hl c hc).2]

lemma roundtrip_aux (codes : List String) (h : ∀ cd ∈ codes, goodCodeChars cd.data) :
    get_mutation_names (joinAll (codes.map fun cd => cd ++ ";\n")) = codes := by
  induction codes with
  | nil => rfl
  | cons cd rest ih =>
    have hcd := h cd (List.mem_cons_self cd rest)
    have hdata : (joinAll ((cd :: rest).map fun c => c ++ ";\n")).data =
        (cd.data ++ [';']) ++ '\n' :: (joinAll (rest.map fun c => c ++ ";\n")).data := by
      show (cd ++ ";\n" ++ joinAll (rest.map fun c => c ++ ";\n")).data = _
      rw [String.data_append, String.data_append,
        show (";\n" : String).data = [';', '\n'] from rfl]
      simp [List.append_assoc]
    rw [get_mutation_names, hdata,
      splitLines_append _ (by
        intro c hc
        rcases List.mem_append.mp hc with hc | hc
        · exact hcd.2.1 c hc
        · simp only [List.mem_singleton] at hc
          rw [hc]; decide) _,
      List.filterMap_cons]
    have hchunk : rstripSemiChars (stripChars (cd.data ++ [';'])) = cd.data :=
      read_back_chunk hcd
    simp only [hchunk, if_neg hcd.1]
    have htail := ih fun c hc => h c (List.mem_cons_of_mem cd hc)
    rw [get_mutation_names] at htail
    rw [htail]

lemma amino_acid_chars :
    ∀ aa ∈ amino_acids, aa.data.length = 1 ∧
      ∀ c ∈ aa.data, isPySpace c = false ∧ c ≠ ';' ∧ c ≠ '\n' := by decide

lemma mutationCodes_good (residues : List Residue)
    (hws : ∀ r ∈ residues, residue_ws_free r) :
    ∀ cd ∈ mutationCodes residues, goodCodeChars cd.data := by
  intro cd hcd
  rw [mutationCodes, List.mem_flatMap] at hcd
  obtain ⟨r, hr, hcd⟩ := hcd
  rw [List.mem_map] at hcd
  obtain ⟨aa, haa, rfl⟩ := hcd
  have haa' : aa ∈ amino_acids := (List.mem_filter.mp haa).1
  obtain ⟨hlen, hch⟩ := amino_acid_chars aa haa'
  obtain ⟨ch, hchdata⟩ := List.length_eq_one.mp hlen
  obtain ⟨hws1, hws2, hws3⟩ := hws r hr
  have hdata : (r.2.2 ++ r.1 ++ r.2.1 ++ aa).data =
      (r.2.2.data ++ r.1.data ++ r.2.1.data) ++ [ch] := by
    rw [String.data_append, String.data_append, String.data_append, hchdata]
  have hpre : ∀ c ∈ r.2.2.data ++ r.1.data ++ r.2.1.data, isPySpace c = false := by
    intro c hc
    rcases List.mem_append.mp hc with hc | hc
    · rcases List.mem_append.mp hc with hc | hc
      · exact hws3 c hc
      · exact hws1 c hc
    · exact hws2 c hc
  have hchprops := hch ch (by rw [hchdata]; exact List.mem_singleton.mpr rfl)
  refine ⟨by simp [hdata], ?_, ?_, ?_⟩
  · intro c hc
    rw [hdata] at hc
    rcases List.mem_append.mp hc with hc | hc
    · intro heq
      have := hpre c hc
      rw [heq] at this
      exact absurd this (by decide)
    · simp only [List.mem_singleton] at hc
      rw [hc]; exact hchprops.2.2
  · intro c hc
    have hmem := mem_of_head?_eq hc
    rw [hdata] at hmem
    rcases List.mem_append.mp hmem with hm | hm
    · exact hpre c hm
    · simp only [List.mem_singleton] at hm
      rw [hm]; exact hchprops.1
  · intro c hc
    rw [hdata, List.getLast?_concat] at hc
    cases hc
    exact ⟨hchprops.1, hchprops.2.1⟩

lemma mutationLines_eq_map_codes (residues : List Residue) :
    mutationLines residues = (mutationCodes residues).map fun cd => cd ++ ";\n" := by
  rw [mutationLines, mutationCodes, List.map_flatMap]
  refine List.flatMap_congr ?_  -- if this lemma is missing, replaced below
  intro r _
  rw [List.map_map]
  rfl

/-- C9 (amended): for residue lists whose chain, position and wild-type
strings contain no whitespace characters, whenever the mutation list
generator completes without raising, reading the written list back with
`get_mutation_names` yields exactly the generated mutation codes in
generation order, with the trailing semicolon and newline stripped. -/
theorem mutation_list_roundtrip (residues : List Residue) (fs : FS)
    (hok : (make_mutation_list residues fs).2 = Except.ok ())
    (hws : ∀ r ∈ residues, residue_ws_free r) :
    get_mutation_names (joinAll (mutationLines residues)) = mutationCodes residues := by
  rw [mutationLines_eq_map_codes]
  exact roundtrip_aux _ (mutationCodes_good residues hws)

/-- C9 witness: the residue `("A", "214", "E")` round-trips. -/
theorem mutation_list_roundtrip_witness :
    get_mutation_names (joinAll (mutationLines [("A", "214", "E")])) =
      mutationCodes [("A", "214", "E")] :=
  mutation_list_roundtrip [("A", "214", "E")] ⟨none⟩ rfl (by decide)

/-- C9 counterexample: the claim as stated fails when a residue string
contains a newline — for the chain `"B\nC"` the generator still completes
without raising (19 lines), but reading the written file back splits each
line at the embedded newline and does not return the generated codes. -/
theorem mutation_list_roundtrip_claim_false_for_whitespace_chain :
    (make_mutation_list [("B\nC", "214", "E")] ⟨none⟩).2 = Except.ok () ∧
    get_mutation_names (joinAll (mutationLines [("B\nC", "214", "E")])) ≠
      mutationCodes [("B\nC", "214", "E")] :=
  ⟨rfl, by decide⟩

end SingleMutation
